import Mathlib

/-!
Verification of the subscription-calendar timeline engine
(`frontend/subscribecal/src/components/Dashboard.vue` and
`frontend/subscribecal/src/components/cards/CalendarEvent.vue`).

The Vue component is shallowly embedded: reactive state becomes a `State`
structure threaded explicitly, JavaScript `Date` instants become integer
milliseconds since the Unix epoch, and the viewer's time-zone offset
(`Date.prototype.getTimezoneOffset`, minutes, UTC minus local) is an explicit
integer parameter.  Calendar arithmetic (`Date.UTC`, `toISOString`) is
implemented with the standard civil-from-days / days-from-civil algorithms,
which is exactly the proleptic Gregorian arithmetic ECMAScript specifies.
-/

namespace SubscribeCal

/-- Calendar day arithmetic: day number (days since 1970-01-01) of a civil
date `(y, m, d)` with `m ∈ [1,12]`, proleptic Gregorian, as ECMAScript
`MakeDay` computes for in-range months. -/
def daysFromCivil (y m d : Int) : Int :=
  let y' := y - (if m ≤ 2 then 1 else 0)
  let era := y' / 400
  let yoe := y' - era * 400
  let mp := (m + 9) % 12
  let doy := (153 * mp + 2) / 5 + (d - 1)
  let doe := yoe * 365 + yoe / 4 - yoe / 100 + doy
  era * 146097 + doe - 719468

/-- Inverse civil date of a day number, proleptic Gregorian. -/
def civilFromDays (z : Int) : Int × Int × Int :=
  let z' := z + 719468
  let era := z' / 146097
  let doe := z' - era * 146097
  let yoe := (doe - doe / 1460 + doe / 36524 - doe / 146096) / 365
  let y := yoe + era * 400
  let doy := doe - (365 * yoe + yoe / 4 - yoe / 100)
  let mp := (5 * doy + 2) / 153
  let d := doy - (153 * mp + 2) / 5 + 1
  let m := mp + (if mp < 10 then 3 else -9)
  (y + (if m ≤ 2 then 1 else 0), m, d)

def isLeapYear (y : Int) : Bool :=
  (y % 4 == 0 && y % 100 != 0) || y % 400 == 0

def daysInMonth (y m : Int) : Int :=
  if m = 2 then (if isLeapYear y then 29 else 28)
  else if m = 4 ∨ m = 6 ∨ m = 9 ∨ m = 11 then 30
  else 31

/-- `Date.UTC(y, m0, d, h, mi, s)` in milliseconds: the month argument is
zero-based and out-of-range months/days overflow into adjacent years/months,
exactly as ECMAScript `MakeDay` normalises them. -/
def dateUTCms (y m0 d h mi s : Int) : Int :=
  let ym := y * 12 + m0
  (daysFromCivil (ym / 12) (ym % 12 + 1) 1 + (d - 1)) * 86400000 +
    h * 3600000 + mi * 60000 + s * 1000

def digitsToInt (cs : List Char) : Int :=
  cs.foldl (fun acc c => acc * 10 + ((c.toNat : Int) - ('0'.toNat : Int))) 0

def allDigits (cs : List Char) : Bool := cs.all Char.isDigit

/-- `parseUTCDateTime` (Dashboard.vue lines 107-123): check the
`^\d{8}T\d{6}Z$` shape, then build the instant with `Date.UTC` (zero-based
month, no further range validation — out-of-range fields overflow). -/
def parseUTCDateTime (s : String) : Option Int :=
  let cs := s.data
  if cs.length == 16 && allDigits (cs.take 8) && cs[8]? == some 'T' &&
      allDigits ((cs.drop 9).take 6) && cs[15]? == some 'Z' then
    let y := digitsToInt (cs.take 4)
    let mo := digitsToInt ((cs.drop 4).take 2)
    let d := digitsToInt ((cs.drop 6).take 2)
    let h := digitsToInt ((cs.drop 9).take 2)
    let mi := digitsToInt ((cs.drop 11).take 2)
    let sec := digitsToInt ((cs.drop 13).take 2)
    some (dateUTCms y (mo - 1) d h mi sec)
  else none

def leftPad (w : Nat) (s : String) : String :=
  ⟨List.replicate (w - s.length) '0' ++ s.data⟩

def pad2 (n : Int) : String := leftPad 2 (toString n.toNat)

def padYear (y : Int) : String :=
  if y < 0 then "-" ++ leftPad 6 (toString (-y).toNat)
  else if y ≤ 9999 then leftPad 4 (toString y.toNat)
  else "+" ++ leftPad 6 (toString y.toNat)

def renderCivil (c : Int × Int × Int) : String :=
  padYear c.1 ++ "-" ++ pad2 c.2.1 ++ "-" ++ pad2 c.2.2

/-- The date part of `Date.prototype.toISOString` (`.slice(0,10)`): the UTC
civil date of the instant. -/
def toISODateString (t : Int) : String :=
  renderCivil (civilFromDays (t / 86400000))

/-- `getLocalISODateString` (Dashboard.vue lines 125-128):
`new Date(date.getTime() - offset*60000).toISOString().slice(0,10)`. -/
def getLocalISODateString (t off : Int) : String :=
  toISODateString (t - off * 60000)

/-- `new Date("YYYY-MM-DD").getTime()`: strict ISO date-only parse,
interpreted as UTC midnight; anything else is `NaN` (modelled `none`).
(The stored group keys are always canonical `getLocalISODateString`
outputs, which take this ISO path.) -/
def parseDateKey (s : String) : Option Int :=
  let cs := s.data
  if cs.length == 10 && allDigits (cs.take 4) && cs[4]? == some '-' &&
      allDigits ((cs.drop 5).take 2) && cs[7]? == some '-' &&
      allDigits ((cs.drop 8).take 2) then
    let y := digitsToInt (cs.take 4)
    let mo := digitsToInt ((cs.drop 5).take 2)
    let d := digitsToInt ((cs.drop 8).take 2)
    if 1 ≤ mo ∧ mo ≤ 12 ∧ 1 ≤ d ∧ d ≤ daysInMonth y mo then
      some (daysFromCivil y mo d * 86400000)
    else none
  else none

/-- Raw calendar event as served by the plugin API.  Only the fields the
timeline logic reads are modelled; the remaining payload fields (summary,
poster, …) are carried by no branch of the logic. -/
structure RawEvent where
  id : Int
  dtstart : String
  dtend : String
  episode : Option Int
deriving DecidableEq, Repr

/-- A formatted item as pushed into a group: the raw event with its parsed
`dtstart` instant attached (`{...item, dtstart: startDate}`) and `dtend`
replaced by its parsed instant when that parse succeeds. -/
structure NormItem where
  src : RawEvent
  start : Int
  endTime : Option Int
deriving DecidableEq, Repr

structure TimeLineGroup where
  date : String
  items : List NormItem
deriving DecidableEq, Repr

/-- Component state: the reactive `timeLineGroups` array plus `loadedRange`. -/
structure State where
  groups : List TimeLineGroup
  before : Int
  after : Int
deriving DecidableEq, Repr

def initState : State := ⟨[], 0, 0⟩

structure ViewportState where
  userScrolled : Bool
  fixedBaseIndex : Int
deriving DecidableEq, Repr

/-- Stable insertion of `a` into `l`: `a` goes in front of the first element
`b` with `le a b`. -/
def stableInsert (le : α → α → Bool) (a : α) : List α → List α
  | [] => [a]
  | b :: bs => if le a b then a :: b :: bs else b :: stableInsert le a bs

/-- Stable sort (model of `Array.prototype.sort`, which ECMAScript requires
to be stable): element `a` stays before `b` exactly when the comparator is
`≤ 0` on `(a, b)`. -/
def sortBy (le : α → α → Bool) (l : List α) : List α :=
  l.foldr (stableInsert le) []

/-- Comparator `new Date(a.date).getTime() - new Date(b.date).getTime()`
of the group sort; a `NaN` operand makes the comparator `NaN`, which
`Array.prototype.sort` treats as `0`. -/
def groupCmp (a b : TimeLineGroup) : Int :=
  match parseDateKey a.date, parseDateKey b.date with
  | some x, some y => x - y
  | _, _ => 0

/-- Appending an item to the group of its key, or creating the group at the
end (JavaScript `Map` preserves insertion order). -/
def insertEvent (gs : List TimeLineGroup) (key : String) (it : NormItem) :
    List TimeLineGroup :=
  match gs with
  | [] => [⟨key, [it]⟩]
  | g :: rest =>
    if g.date = key then ⟨g.date, g.items ++ [it]⟩ :: rest
    else g :: insertEvent rest key it

/-- The `res.forEach` grouping loop (Dashboard.vue lines 45-70): events whose
`dtstart` fails `parseUTCDateTime` are skipped; the rest are bucketed by
their viewer-local date key. -/
def groupEvents (events : List RawEvent) (off : Int) : List TimeLineGroup :=
  events.foldl (fun gs e =>
    match parseUTCDateTime e.dtstart with
    | none => gs
    | some startMs =>
      insertEvent gs (getLocalISODateString startMs off)
        ⟨e, startMs, parseUTCDateTime e.dtend⟩) []

/-- First-occurrence-per-date filter.  Both the `Map`-based pass inside
`fetchTimeLineGroups` (lines 77-84) and `getUniqueGroups` (lines 150-161)
implement exactly this. -/
def dedupAux (seen : List String) : List TimeLineGroup → List TimeLineGroup
  | [] => []
  | g :: rest =>
    if g.date ∈ seen then dedupAux seen rest
    else g :: dedupAux (g.date :: seen) rest

def getUniqueGroups (gs : List TimeLineGroup) : List TimeLineGroup :=
  dedupAux [] gs

/-- The batch a single fetch produces: group, sort by date, de-duplicate. -/
def buildFiltered (events : List RawEvent) (off : Int) : List TimeLineGroup :=
  getUniqueGroups (sortBy (fun a b => groupCmp a b ≤ 0) (groupEvents events off))

/-- `fetchTimeLineGroups(beforeDays, afterDays)` (Dashboard.vue lines
36-100).  The awaited fetch result is an `Except`: a rejection (or a throw
while processing the result — both happen before the first mutation of
component state) is caught and leaves the state untouched.  On success the
batch is prepended when `beforeDays` advances `loadedRange.before` and
appended when `afterDays` advances `loadedRange.after`. -/
def fetchTimeLineGroups (bd ad : Int) (res : Except Unit (List RawEvent))
    (off : Int) (s : State) : State :=
  match res with
  | .error _ => s
  | .ok events =>
    let filtered := buildFiltered events off
    let s1 := if s.before < bd then
        { s with groups := filtered ++ s.groups, before := bd } else s
    if s1.after < ad then
      { s1 with groups := s1.groups ++ filtered, after := ad } else s1

/-- A sequence of widen calls, each with its own fetched batch. -/
def applyCalls (calls : List (Int × Int × List RawEvent)) (off : Int)
    (s : State) : State :=
  calls.foldl (fun s c => fetchTimeLineGroups c.1 c.2.1 (.ok c.2.2) off s) s

/-- `getBaseIndex` (Dashboard.vue lines 130-148), with the current instant
and viewer offset explicit.  `new Date(g.date) >= new Date(y, m, d)` compares
the UTC-midnight instant of the group's key against the viewer-local midnight
of today (a `NaN` date makes the comparison false). -/
def getBaseIndex (groups : List TimeLineGroup) (now off : Int)
    (vs : ViewportState) : Int :=
  if vs.userScrolled ∧ 0 ≤ vs.fixedBaseIndex then vs.fixedBaseIndex
  else
    match groups.findIdx? (fun g => g.date == getLocalISODateString now off) with
    | some i => (i : Int)
    | none =>
      match groups.findIdx? (fun g =>
          match parseDateKey g.date with
          | some t =>
            decide (daysFromCivil
                (civilFromDays ((now - off * 60000) / 86400000)).1
                (civilFromDays ((now - off * 60000) / 86400000)).2.1
                (civilFromDays ((now - off * 60000) / 86400000)).2.2 *
                  86400000 + off * 60000 ≤ t)
          | none => false) with
      | some j => (j : Int)
      | none => 0

/-- `Date.parse(formatDateString(s))` of the item sort (CalendarEvent.vue
lines 92-97): `formatDateString` re-assembles character slices
`(0,4)(4,6)(6,8)(9,11)(11,13)(13,15)` of `dtstart` into an ISO string
`"A-B-CTD:E:FZ"`; ECMAScript parses that ISO shape only when every slice is
all digits of the expected width and the calendar/time fields are in range
(hour 24 only with zero minutes/seconds), else `NaN` (`none`). -/
def parseISOSliced (s : String) : Option Int :=
  let cs := s.data
  let s1 := cs.take 4
  let s2 := (cs.drop 4).take 2
  let s3 := (cs.drop 6).take 2
  let s4 := (cs.drop 9).take 2
  let s5 := (cs.drop 11).take 2
  let s6 := (cs.drop 13).take 2
  if s1.length == 4 && allDigits s1 && s2.length == 2 && allDigits s2 &&
      s3.length == 2 && allDigits s3 && s4.length == 2 && allDigits s4 &&
      s5.length == 2 && allDigits s5 && s6.length == 2 && allDigits s6 then
    let y := digitsToInt s1
    let mo := digitsToInt s2
    let d := digitsToInt s3
    let h := digitsToInt s4
    let mi := digitsToInt s5
    let sec := digitsToInt s6
    if (1 ≤ mo ∧ mo ≤ 12 ∧ 1 ≤ d ∧ d ≤ daysInMonth y mo) ∧
        ((h ≤ 23 ∧ mi ≤ 59 ∧ sec ≤ 59) ∨ (h = 24 ∧ mi = 0 ∧ sec = 0)) then
      some (daysFromCivil y mo d * 86400000 +
        h * 3600000 + mi * 60000 + sec * 1000)
    else none
  else none

/-- The comparator of `sortedEvents` (CalendarEvent.vue lines 91-122),
operating on raw items whose `dtstart` is still the wire string: an
unparsable `dtstart` of the first argument sorts it after the second
(checked first), then start instant ascending, then numeric `id`, then
episode presence, then episode ascending, else `0`. -/
def jsCompare (a b : RawEvent) : Int :=
  match parseISOSliced a.dtstart, parseISOSliced b.dtstart with
  | none, _ => 1
  | some _, none => -1
  | some x, some y =>
    if x ≠ y then x - y
    else if a.id ≠ b.id then (if a.id < b.id then -1 else 1)
    else
      match a.episode, b.episode with
      | none, some _ => 1
      | some _, none => -1
      | some ea, some eb => ea - eb
      | none, none => 0

/-- `sortedEvents` (CalendarEvent.vue lines 83-123): drop items with a falsy
`dtstart`, then stable-sort by the comparator. -/
def sortedEvents (events : List RawEvent) : List RawEvent :=
  sortBy (fun a b => jsCompare a b ≤ 0) (events.filter (fun e => e.dtstart ≠ ""))

/-- The sign of a JavaScript comparator value as an `Ordering`. -/
def ordSign (z : Int) : Ordering :=
  if z < 0 then .lt else if 0 < z then .gt else .eq

/-- JavaScript `<` on strings: lexicographic by code unit. -/
def charListLt : List Char → List Char → Bool
  | [], [] => false
  | [], _ :: _ => true
  | _ :: _, [] => false
  | a :: as, b :: bs =>
    if a < b then true else if b < a then false else charListLt as bs

def strLt (a b : String) : Bool := charListLt a.data b.data

/-- The §4.5 rule chain exactly as the specification words it: instant
ascending with non-comparable items last and *stable* among themselves,
tie broken by ascending *string* comparison of `id`, then episode presence,
then ascending episode, else stable. -/
def specChainStr (a b : RawEvent) : Ordering :=
  match parseISOSliced a.dtstart, parseISOSliced b.dtstart with
  | none, none => .eq
  | none, some _ => .gt
  | some _, none => .lt
  | some x, some y =>
    if x < y then .lt else if y < x then .gt
    else if strLt (toString a.id) (toString b.id) then .lt
    else if strLt (toString b.id) (toString a.id) then .gt
    else
      match a.episode, b.episode with
      | some _, none => .lt
      | none, some _ => .gt
      | some ea, some eb =>
        if ea < eb then .lt else if eb < ea then .gt else .eq
      | none, none => .eq

/-- The amended §4.5 rule chain: as `specChainStr`, except that the `id`
tie-break is numeric (ids are numbers) and that two items with
non-comparable instants are not kept stable — the comparator orders the
first argument after the second. -/
def specChainNum (a b : RawEvent) : Ordering :=
  match parseISOSliced a.dtstart, parseISOSliced b.dtstart with
  | none, _ => .gt
  | some _, none => .lt
  | some x, some y =>
    if x < y then .lt else if y < x then .gt
    else if a.id < b.id then .lt else if b.id < a.id then .gt
    else
      match a.episode, b.episode with
      | some _, none => .lt
      | none, some _ => .gt
      | some ea, some eb =>
        if ea < eb then .lt else if eb < ea then .gt else .eq
      | none, none => .eq

/-- `displayedGroups` (Dashboard.vue lines 164-182). -/
def displayedGroups (groups : List TimeLineGroup) (vs : ViewportState)
    (now off : Int) : List TimeLineGroup :=
  let baseIndex := getBaseIndex groups now off vs
  if baseIndex = -1 then []
  else
    let uniq := getUniqueGroups groups
    if vs.userScrolled then uniq
    else
      let s := max 0 (baseIndex - 2)
      let e := min ((uniq.length : Int) - 1) (baseIndex + 4)
      (uniq.take (e + 1).toNat).drop s.toNat

/-- Does any group of `gs` contain the formatted image of raw event `e`? -/
def memSrc (gs : List TimeLineGroup) (e : RawEvent) : Bool :=
  gs.any (fun g => g.items.any (fun it => it.src == e))

/-- Claim C2 as stated: after a merge the stored list has one group per
date key and no group holds two items with the same id. -/
abbrev claimC2Stated (s : State) : Prop :=
  s.groups.Pairwise (fun a b => a.date ≠ b.date) ∧
    ∀ g ∈ s.groups, g.items.Pairwise (fun a b => a.src.id ≠ b.src.id)

/-- Concrete events for counterexamples and witnesses. -/
def evA : RawEvent := ⟨1, "20250601T120000Z", "", none⟩

def evDup : RawEvent := ⟨1, "20250601T120000Z", "20250601T130000Z", none⟩

/-- An event whose `dtstart` does not match `8 digits, 'T', 6 digits, 'Z'`. -/
def evBad : RawEvent := ⟨2, "2025-06-01T12:00:00Z", "", none⟩

def evId9 : RawEvent := ⟨9, "20250531T160000Z", "", none⟩

def evId10 : RawEvent := ⟨10, "20250531T160000Z", "", none⟩

def evEp3 : RawEvent := ⟨5, "20250531T160000Z", "", some 3⟩

def evEp1 : RawEvent := ⟨5, "20250531T160000Z", "", some 1⟩

theorem dedupAux_sublist (l : List TimeLineGroup) (seen : List String) :
    (dedupAux seen l).Sublist l := by
  induction l generalizing seen with
  | nil => simp [dedupAux]
  | cons g rest ih =>
    simp only [dedupAux]
    split
    · exact (ih seen).trans (List.sublist_cons_self g rest)
    · exact (ih (g.date :: seen)).cons₂ g

theorem mem_dedupAux {g : TimeLineGroup} {l : List TimeLineGroup}
    {seen : List String} (h : g ∈ dedupAux seen l) :
    g ∈ l ∧ g.date ∉ seen := by
  induction l generalizing seen with
  | nil => simp [dedupAux] at h
  | cons f rest ih =>
    simp only [dedupAux] at h
    split at h
    · obtain ⟨h1, h2⟩ := ih h
      exact ⟨List.mem_cons_of_mem f h1, h2⟩
    · rcases List.mem_cons.mp h with rfl | h'
      · exact ⟨List.mem_cons_self g rest, by assumption⟩
      · obtain ⟨h1, h2⟩ := ih h'
        refine ⟨List.mem_cons_of_mem f h1, fun hc => h2 ?_⟩
        exact List.mem_cons_of_mem f.date hc

theorem dedupAux_pairwise (l : List TimeLineGroup) (seen : List String) :
    (dedupAux seen l).Pairwise (fun a b => a.date ≠ b.date) := by
  induction l generalizing seen with
  | nil => simp [dedupAux]
  | cons g rest ih =>
    simp only [dedupAux]
    split
    · exact ih seen
    · refine List.Pairwise.cons (fun h hm => ?_) (ih (g.date :: seen))
      intro hd
      exact (mem_dedupAux hm).2 (by simp [hd])

theorem find?_eq_of_mem_dedupAux {g : TimeLineGroup} {l : List TimeLineGroup}
    {seen : List String} (h : g ∈ dedupAux seen l) :
    l.find? (fun h' => h'.date == g.date) = some g := by
  induction l generalizing seen with
  | nil => simp [dedupAux] at h
  | cons f rest ih =>
    simp only [dedupAux] at h
    split at h
    · have hne : f.date ≠ g.date := by
        intro hd
        exact (mem_dedupAux h).2 (hd ▸ (by assumption))
      rw [List.find?_cons_of_neg _ (by simpa using hne)]
      exact ih h
    · rcases List.mem_cons.mp h with rfl | h'
      · rw [List.find?_cons_of_pos _ (by simp)]
      · have hne : f.date ≠ g.date := by
          intro hd
          exact (mem_dedupAux h').2 (by simp [hd])
        rw [List.find?_cons_of_neg _ (by simpa using hne)]
        exact ih h'

theorem dedupAux_eq_self {l : List TimeLineGroup} {seen : List String}
    (hp : l.Pairwise (fun a b => a.date ≠ b.date))
    (hs : ∀ g ∈ l, g.date ∉ seen) : dedupAux seen l = l := by
  induction l generalizing seen with
  | nil => simp [dedupAux]
  | cons g rest ih =>
    have hg : g.date ∉ seen := hs g (List.mem_cons_self g rest)
    simp only [dedupAux, if_neg hg]
    congr 1
    refine ih (List.Pairwise.of_cons hp) (fun f hf => ?_)
    intro hc
    rcases List.mem_cons.mp hc with hd | hd
    · exact (List.pairwise_cons.mp hp).1 f hf hd.symm
    · exact hs f (List.mem_cons_of_mem g hf) hd

theorem getUniqueGroups_sublist (l : List TimeLineGroup) :
    (getUniqueGroups l).Sublist l := dedupAux_sublist l []

theorem getUniqueGroups_pairwise (l : List TimeLineGroup) :
    (getUniqueGroups l).Pairwise (fun a b => a.date ≠ b.date) :=
  dedupAux_pairwise l []

theorem getUniqueGroups_eq_self {l : List TimeLineGroup}
    (hp : l.Pairwise (fun a b => a.date ≠ b.date)) : getUniqueGroups l = l :=
  dedupAux_eq_self hp (by simp)

/-! ### Helper lemmas about the stable sort -/

theorem stableInsert_perm (le : α → α → Bool) (a : α) (l : List α) :
    (stableInsert le a l).Perm (a :: l) := by
  induction l with
  | nil => exact List.Perm.refl _
  | cons b bs ih =>
    simp only [stableInsert]
    split
    · exact List.Perm.refl _
    · exact (ih.cons b).trans (List.Perm.swap a b bs)

theorem sortBy_perm (le : α → α → Bool) (l : List α) :
    (sortBy le l).Perm l := by
  induction l with
  | nil => exact List.Perm.refl _
  | cons a as ih =>
    exact (stableInsert_perm le a (sortBy le as)).trans (ih.cons a)

theorem any_eq_of_perm {l l' : List α} (h : l.Perm l') (p : α → Bool) :
    l.any p = l'.any p := by
  by_cases hb : l.any p = true
  · rw [hb]
    symm
    obtain ⟨x, hx, hpx⟩ := List.any_eq_true.mp hb
    exact List.any_eq_true.mpr ⟨x, h.mem_iff.mp hx, hpx⟩
  · have h' : ¬ l'.any p = true := fun hb' => by
      obtain ⟨x, hx, hpx⟩ := List.any_eq_true.mp hb'
      exact hb (List.any_eq_true.mpr ⟨x, h.mem_iff.mpr hx, hpx⟩)
    simp only [Bool.not_eq_true] at hb h'
    rw [hb, h']

/-! ### Helper lemmas about grouping -/

theorem memSrc_insertEvent_self (gs : List TimeLineGroup) (key : String)
    (it : NormItem) : memSrc (insertEvent gs key it) it.src = true := by
  induction gs with
  | nil => simp [insertEvent, memSrc]
  | cons g rest ih =>
    simp only [insertEvent]
    split
    · simp [memSrc]
    · simpa [memSrc] using Or.inr (by simpa [memSrc] using ih)

theorem memSrc_insertEvent_other {e : RawEvent} {it : NormItem}
    (hne : it.src ≠ e) (gs : List TimeLineGroup) (key : String) :
    memSrc (insertEvent gs key it) e = memSrc gs e := by
  have hb : (it.src == e) = false := by simpa using hne
  induction gs with
  | nil => simp [insertEvent, memSrc, hb]
  | cons g rest ih =>
    simp only [insertEvent]
    split
    · simp [memSrc, hb]
    · simp only [memSrc, List.any_cons] at ih ⊢
      rw [ih]

theorem memSrc_insertEvent_mono {e : RawEvent}
    (gs : List TimeLineGroup) (key : String) (it : NormItem)
    (h : memSrc gs e = true) : memSrc (insertEvent gs key it) e = true := by
  induction gs with
  | nil => simp [memSrc] at h
  | cons g rest ih =>
    simp only [insertEvent]
    rcases List.any_eq_true.mp h with ⟨g', hg', hpg'⟩
    rcases List.mem_cons.mp hg' with rfl | hg'
    · split
      · refine List.any_eq_true.mpr ⟨⟨g'.date, g'.items ++ [it]⟩, List.mem_cons_self _ _, ?_⟩
        simp only [List.any_append] at hpg' ⊢
        simp [hpg']
      · exact List.any_eq_true.mpr ⟨g', List.mem_cons_self _ _, hpg'⟩
    · have hrest : memSrc rest e = true := List.any_eq_true.mpr ⟨g', hg', hpg'⟩
      split
      · exact List.any_eq_true.mpr ⟨g', List.mem_cons_of_mem _ hg', hpg'⟩
      · refine List.any_eq_true.mpr ?_
        rcases List.any_eq_true.mp (ih hrest) with ⟨g'', hg'', hpg''⟩
        exact ⟨g'', List.mem_cons_of_mem _ hg'', hpg''⟩

/-- Every item inserted by the grouping loop carries a raw event whose
`dtstart` parses; an event with unparsable `dtstart` is in no group. -/
theorem memSrc_groupEvents_invalid {e : RawEvent}
    (hinv : parseUTCDateTime e.dtstart = none)
    (events : List RawEvent) (off : Int) :
    memSrc (groupEvents events off) e = false := by
  suffices h : ∀ acc, memSrc acc e = false →
      memSrc (events.foldl (fun gs e' =>
        match parseUTCDateTime e'.dtstart with
        | none => gs
        | some startMs =>
          insertEvent gs (getLocalISODateString startMs off)
            ⟨e', startMs, parseUTCDateTime e'.dtend⟩) acc) e = false by
    exact h [] (by simp [memSrc])
  induction events with
  | nil => intro acc hacc; simpa using hacc
  | cons f rest ih =>
    intro acc hacc
    simp only [List.foldl_cons]
    apply ih
    cases hf : parseUTCDateTime f.dtstart with
    | none => simpa [hf] using hacc
    | some t =>
      have hne : f ≠ e := fun hfe => by rw [hfe, hinv] at hf; cases hf
      simp only [hf]
      rw [memSrc_insertEvent_other (by simpa using hne)]
      exact hacc

/-- An event whose `dtstart` parses is placed into some group, whatever its
`dtend` does. -/
theorem memSrc_groupEvents_valid {e : RawEvent} {t : Int}
    (hval : parseUTCDateTime e.dtstart = some t)
    {events : List RawEvent} (he : e ∈ events) (off : Int) :
    memSrc (groupEvents events off) e = true := by
  suffices h : ∀ acc, memSrc acc e = true ∨ e ∈ events →
      memSrc (events.foldl (fun gs e' =>
        match parseUTCDateTime e'.dtstart with
        | none => gs
        | some startMs =>
          insertEvent gs (getLocalISODateString startMs off)
            ⟨e', startMs, parseUTCDateTime e'.dtend⟩) acc) e = true by
    exact h [] (Or.inr he)
  clear he
  induction events with
  | nil =>
    intro acc hacc
    simpa using hacc.resolve_right (by simp)
  | cons f rest ih =>
    intro acc hacc
    simp only [List.foldl_cons]
    apply ih
    rcases hacc with hacc | hacc
    · left
      cases hf : parseUTCDateTime f.dtstart with
      | none => simpa [hf] using hacc
      | some t' =>
        simp only [hf]
        exact memSrc_insertEvent_mono _ _ _ hacc
    · rcases List.mem_cons.mp hacc with rfl | hmem
      · left
        simp only [hval]
        exact memSrc_insertEvent_self _ _ _
      · exact Or.inr hmem

theorem dates_insertEvent (gs : List TimeLineGroup) (key : String)
    (it : NormItem) :
    (insertEvent gs key it).map (fun g => g.date) =
      if key ∈ gs.map (fun g => g.date) then gs.map (fun g => g.date)
      else gs.map (fun g => g.date) ++ [key] := by
  induction gs with
  | nil => simp [insertEvent]
  | cons g rest ih =>
    simp only [insertEvent]
    by_cases hk : g.date = key
    · simp [hk]
    · simp only [if_neg hk, List.map_cons, ih, List.mem_cons]
      by_cases hmem : key ∈ rest.map (fun g => g.date)
      · simp [hmem]
      · have : ¬ (key = g.date ∨ key ∈ rest.map (fun g => g.date)) := by
          rintro (rfl | h)
          · exact hk rfl
          · exact hmem h
        rw [if_neg hmem, if_neg this]
        simp

theorem nodup_dates_insertEvent {gs : List TimeLineGroup}
    (h : (gs.map (fun g => g.date)).Nodup) (key : String) (it : NormItem) :
    ((insertEvent gs key it).map (fun g => g.date)).Nodup := by
  rw [dates_insertEvent]
  split
  · exact h
  · have hne : key ∉ gs.map (fun g => g.date) := by assumption
    exact h.append (List.nodup_singleton key) (fun a ha hb => by
      simp only [List.mem_singleton] at hb
      exact hne (hb ▸ ha))

theorem nodup_dates_groupEvents (events : List RawEvent) (off : Int) :
    ((groupEvents events off).map (fun g => g.date)).Nodup := by
  suffices h : ∀ acc : List TimeLineGroup, (acc.map (fun g => g.date)).Nodup →
      ((events.foldl (fun gs e' =>
        match parseUTCDateTime e'.dtstart with
        | none => gs
        | some startMs =>
          insertEvent gs (getLocalISODateString startMs off)
            ⟨e', startMs, parseUTCDateTime e'.dtend⟩) acc).map
          (fun g => g.date)).Nodup by
    exact h [] (by simp)
  induction events with
  | nil => intro acc hacc; simpa using hacc
  | cons f rest ih =>
    intro acc hacc
    simp only [List.foldl_cons]
    apply ih
    cases hf : parseUTCDateTime f.dtstart with
    | none => simpa [hf] using hacc
    | some t => simpa [hf] using nodup_dates_insertEvent hacc _ _

theorem pairwise_dates_of_nodup {gs : List TimeLineGroup}
    (h : (gs.map (fun g => g.date)).Nodup) :
    gs.Pairwise (fun a b => a.date ≠ b.date) := by
  rw [List.Nodup, List.pairwise_map] at h
  exact h

theorem pairwise_dates_sorted_groupEvents (events : List RawEvent) (off : Int) :
    (sortBy (fun a b => groupCmp a b ≤ 0) (groupEvents events off)).Pairwise
      (fun a b => a.date ≠ b.date) := by
  apply pairwise_dates_of_nodup
  have hperm : ((sortBy (fun a b => groupCmp a b ≤ 0)
      (groupEvents events off)).map (fun g => g.date)).Perm
      ((groupEvents events off).map (fun g => g.date)) :=
    (sortBy_perm _ _).map _
  exact hperm.nodup_iff.mpr (nodup_dates_groupEvents events off)

theorem memSrc_of_perm {l l' : List TimeLineGroup} (h : l.Perm l')
    (e : RawEvent) : memSrc l e = memSrc l' e := any_eq_of_perm h _

theorem memSrc_append (l₁ l₂ : List TimeLineGroup) (e : RawEvent) :
    memSrc (l₁ ++ l₂) e = (memSrc l₁ e || memSrc l₂ e) := List.any_append

theorem memSrc_false_of_sublist {l l' : List TimeLineGroup} {e : RawEvent}
    (hs : l'.Sublist l) (h : memSrc l e = false) : memSrc l' e = false := by
  by_contra hc
  have hc' : memSrc l' e = true := by
    cases hb : memSrc l' e
    · exact absurd hb hc
    · rfl
  obtain ⟨g, hg, hpg⟩ := List.any_eq_true.mp hc'
  have : memSrc l e = true := List.any_eq_true.mpr ⟨g, hs.mem hg, hpg⟩
  rw [h] at this
  cases this

theorem memSrc_buildFiltered_invalid {e : RawEvent}
    (hinv : parseUTCDateTime e.dtstart = none)
    (events : List RawEvent) (off : Int) :
    memSrc (buildFiltered events off) e = false := by
  apply memSrc_false_of_sublist (getUniqueGroups_sublist _)
  rw [memSrc_of_perm (sortBy_perm _ _)]
  exact memSrc_groupEvents_invalid hinv events off

theorem memSrc_buildFiltered_valid {e : RawEvent} {t : Int}
    (hval : parseUTCDateTime e.dtstart = some t)
    {events : List RawEvent} (he : e ∈ events) (off : Int) :
    memSrc (buildFiltered events off) e = true := by
  unfold buildFiltered
  rw [getUniqueGroups_eq_self (pairwise_dates_sorted_groupEvents events off)]
  rw [memSrc_of_perm (sortBy_perm _ _)]
  exact memSrc_groupEvents_valid hval he off

/-! ### Helper lemmas about the widen call -/

theorem fetch_ok_before (bd ad : Int) (evts : List RawEvent) (off : Int)
    (s : State) :
    (fetchTimeLineGroups bd ad (.ok evts) off s).before = max s.before bd := by
  simp only [fetchTimeLineGroups]
  split <;> split <;> simp_all <;> omega

theorem fetch_ok_after (bd ad : Int) (evts : List RawEvent) (off : Int)
    (s : State) :
    (fetchTimeLineGroups bd ad (.ok evts) off s).after = max s.after ad := by
  simp only [fetchTimeLineGroups]
  split <;> split <;> simp_all <;> omega

theorem memSrc_fetch_invalid {e : RawEvent}
    (hinv : parseUTCDateTime e.dtstart = none) (bd ad : Int)
    (evts : List RawEvent) (off : Int) (s : State) :
    memSrc (fetchTimeLineGroups bd ad (.ok evts) off s).groups e =
      memSrc s.groups e := by
  have hb := memSrc_buildFiltered_invalid hinv evts off
  simp only [fetchTimeLineGroups]
  split <;> split <;> simp_all [memSrc_append, hb]

/-! ### Helper lemmas about the visible window -/

theorem getBaseIndex_nonneg (groups : List TimeLineGroup) (now off : Int)
    (vs : ViewportState) : 0 ≤ getBaseIndex groups now off vs := by
  unfold getBaseIndex
  split
  · omega
  · split
    · exact Int.natCast_nonneg _
    · split
      · exact Int.natCast_nonneg _
      · exact le_refl 0

theorem applyCalls_before (calls : List (Int × Int × List RawEvent))
    (off : Int) (s : State) :
    (applyCalls calls off s).before =
      calls.foldl (fun m c => max m c.1) s.before := by
  induction calls generalizing s with
  | nil => rfl
  | cons c cs ih =>
    simp only [applyCalls, List.foldl_cons] at ih ⊢
    rw [ih, fetch_ok_before]

theorem applyCalls_after (calls : List (Int × Int × List RawEvent))
    (off : Int) (s : State) :
    (applyCalls calls off s).after =
      calls.foldl (fun m c => max m c.2.1) s.after := by
  induction calls generalizing s with
  | nil => rfl
  | cons c cs ih =>
    simp only [applyCalls, List.foldl_cons] at ih ⊢
    rw [ih, fetch_ok_after]

theorem le_foldl_max (l : List Int) (a : Int) : a ≤ l.foldl max a := by
  induction l generalizing a with
  | nil => exact le_refl a
  | cons b bs ih =>
    exact le_trans (le_max_left a b) (ih (max a b))

theorem mem_le_foldl_max (l : List Int) (x : Int) :
    ∀ a, x ∈ l → x ≤ l.foldl max a := by
  induction l with
  | nil => intro a h; simp at h
  | cons b bs ih =>
    intro a h
    rcases List.mem_cons.mp h with rfl | h'
    · exact le_trans (le_max_right a x) (le_foldl_max bs (max a x))
    · exact ih (max a b) h'

theorem foldl_max_mem_or_init (l : List Int) (a : Int) :
    l.foldl max a ∈ l ∨ l.foldl max a = a := by
  induction l generalizing a with
  | nil => exact Or.inr rfl
  | cons b bs ih =>
    rcases ih (max a b) with h | h
    · exact Or.inl (List.mem_cons_of_mem b h)
    · rcases max_choice a b with hm | hm
      · exact Or.inr (by rw [List.foldl_cons, h, hm])
      · exact Or.inl (by rw [List.foldl_cons, h, hm]; exact List.mem_cons_self b bs)

theorem displayed_sublist_unique (groups : List TimeLineGroup)
    (vs : ViewportState) (now off : Int) :
    (displayedGroups groups vs now off).Sublist (getUniqueGroups groups) := by
  simp only [displayedGroups]
  split
  · exact List.nil_sublist _
  · split
    · exact List.Sublist.refl _
    · exact (List.drop_sublist _ _).trans (List.take_sublist _ _)

/-! ### The civil-calendar conversions are mutually inverse -/

/-- C1: merging an identical fetch result a second time with the same
`beforeDays`/`afterDays` is a no-op — the state after two identical
`fetchTimeLineGroups` calls equals the state after one (group list and
loaded range alike). -/
theorem fetchTimeLineGroups_idem (bd ad : Int)
    (res : Except Unit (List RawEvent)) (off : Int) (s : State) :
    fetchTimeLineGroups bd ad res off (fetchTimeLineGroups bd ad res off s) =
      fetchTimeLineGroups bd ad res off s := by
  cases res with
  | error e => rfl
  | ok events =>
    simp only [fetchTimeLineGroups]
    by_cases h1 : s.before < bd <;> by_cases h2 : s.after < ad <;>
      simp [h1, h2]

/-- C3: `loadedRange` is the running maximum of the requested windows —
after any sequence of widen calls from the initial state it equals the
fold of `max` over all requested `beforeDays`/`afterDays` (their maximum,
the requests being non-negative day counts), a single call never decreases
either field, and the scenario `requestWindow(4,5)` then `requestWindow(2,3)`
ends at `{before := 4, after := 5}`. -/
theorem loadedRange_eq_max_requested (calls : List (Int × Int × List RawEvent))
    (off : Int) (hpos : ∀ c ∈ calls, 0 ≤ c.1 ∧ 0 ≤ c.2.1) :
    (applyCalls calls off initState).before =
      calls.foldl (fun m c => max m c.1) 0 ∧
    (applyCalls calls off initState).after =
      calls.foldl (fun m c => max m c.2.1) 0 ∧
    (∀ (bd ad : Int) (res : Except Unit (List RawEvent)) (s : State),
      s.before ≤ (fetchTimeLineGroups bd ad res off s).before ∧
      s.after ≤ (fetchTimeLineGroups bd ad res off s).after) ∧
    (calls ≠ [] →
      ((applyCalls calls off initState).before ∈ calls.map (fun c => c.1) ∧
        ∀ c ∈ calls, c.1 ≤ (applyCalls calls off initState).before) ∧
      ((applyCalls calls off initState).after ∈ calls.map (fun c => c.2.1) ∧
        ∀ c ∈ calls, c.2.1 ≤ (applyCalls calls off initState).after)) ∧
    (∀ r1 r2 : List RawEvent,
      (applyCalls [(4, 5, r1), (2, 3, r2)] off initState).before = 4 ∧
      (applyCalls [(4, 5, r1), (2, 3, r2)] off initState).after = 5) := by
  have hb := applyCalls_before calls off initState
  have ha := applyCalls_after calls off initState
  have hbm : (applyCalls calls off initState).before =
      (calls.map (fun c => c.1)).foldl max 0 := by
    rw [hb, List.foldl_map]
    rfl
  have ham : (applyCalls calls off initState).after =
      (calls.map (fun c => c.2.1)).foldl max 0 := by
    rw [ha, List.foldl_map]
    rfl
  refine ⟨hb, ha, ?_, ?_, ?_⟩
  · intro bd ad res s
    cases res with
    | error e => exact ⟨le_refl _, le_refl _⟩
    | ok events =>
      rw [fetch_ok_before, fetch_ok_after]
      exact ⟨le_max_left _ _, le_max_left _ _⟩
  · intro hne
    obtain ⟨c0, hc0⟩ := List.exists_mem_of_ne_nil calls hne
    have hmax : ∀ (f : Int × Int × List RawEvent → Int)
        (h0 : ∀ c ∈ calls, 0 ≤ f c),
        (calls.map f).foldl max 0 ∈ calls.map f ∧
          ∀ c ∈ calls, f c ≤ (calls.map f).foldl max 0 := by
      intro f h0
      constructor
      · rcases foldl_max_mem_or_init (calls.map f) 0 with h | h
        · exact h
        · rw [h]
          have h1 : f c0 ≤ 0 := by
            rw [← h]
            exact mem_le_foldl_max _ _ 0 (List.mem_map_of_mem f hc0)
          have h2 : 0 ≤ f c0 := h0 c0 hc0
          have : f c0 = 0 := le_antisymm h1 h2
          rw [← this]
          exact List.mem_map_of_mem f hc0
      · intro c hc
        exact mem_le_foldl_max _ _ 0 (List.mem_map_of_mem f hc)
    constructor
    · rw [hbm]
      exact hmax (fun c => c.1) (fun c hc => (hpos c hc).1)
    · rw [ham]
      exact hmax (fun c => c.2.1) (fun c hc => (hpos c hc).2)
  · intro r1 r2
    constructor
    · rw [applyCalls_before]
      rfl
    · rw [applyCalls_after]
      rfl

/-- C3 witness: the monotone-range theorem applied to the concrete call
sequence `(4,5)` then `(2,3)` with empty fetch results. -/
theorem loadedRange_eq_max_requested_inst :
    (applyCalls [(4, 5, ([] : List RawEvent)), (2, 3, [])] 0 initState).before =
      [((4 : Int), (5 : Int), ([] : List RawEvent)), (2, 3, [])].foldl
        (fun m c => max m c.1) 0 :=
  (loadedRange_eq_max_requested [(4, 5, []), (2, 3, [])] 0
    (by intro c hc; fin_cases hc <;> exact ⟨by norm_num, by norm_num⟩)).1

/-- C6: once a user scroll is recorded, `displayedGroups` is the entire
de-duplicated stored list, and its value does not depend on the current
instant or the viewer offset — two evaluations in the frozen state over the
same stored list agree for every pair of "today" values. -/
theorem frozen_visible_full_and_today_independent
    (groups : List TimeLineGroup) (fix now1 off1 now2 off2 : Int) :
    displayedGroups groups ⟨true, fix⟩ now1 off1 = getUniqueGroups groups ∧
    displayedGroups groups ⟨true, fix⟩ now1 off1 =
      displayedGroups groups ⟨true, fix⟩ now2 off2 := by
  have key : ∀ now off : Int,
      displayedGroups groups ⟨true, fix⟩ now off = getUniqueGroups groups := by
    intro now off
    have hB := getBaseIndex_nonneg groups now off ⟨true, fix⟩
    simp only [displayedGroups]
    rw [if_neg (by omega)]
    simp
  exact ⟨key now1 off1, (key now1 off1).trans (key now2 off2).symm⟩

/-- C7: a failed fetch (rejection of the awaited call, or a throw while its
result is processed — both caught before any state mutation) leaves the
stored groups and loaded range exactly as they were, and the identical
widen call can then be retried as if the failure had never happened. -/
theorem fetch_error_leaves_state (bd ad off : Int) (s : State)
    (res' : Except Unit (List RawEvent)) :
    fetchTimeLineGroups bd ad (.error ()) off s = s ∧
    fetchTimeLineGroups bd ad res' off
        (fetchTimeLineGroups bd ad (.error ()) off s) =
      fetchTimeLineGroups bd ad res' off s := ⟨rfl, rfl⟩

/-- C10: whatever the viewport state and the current date, the displayed
list has pairwise-distinct date keys, is a subsequence of the stored list,
and each of its elements is the stored list's *first* group with that date
key. -/
theorem displayed_unique_first_occurrence_subseq (groups : List TimeLineGroup)
    (vs : ViewportState) (now off : Int) :
    (displayedGroups groups vs now off).Pairwise (fun a b => a.date ≠ b.date) ∧
    (displayedGroups groups vs now off).Sublist groups ∧
    (displayedGroups groups vs now off).all
      (fun g => groups.find? (fun h => h.date == g.date) == some g) = true := by
  have hsub := displayed_sublist_unique groups vs now off
  refine ⟨(getUniqueGroups_pairwise groups).sublist hsub,
    hsub.trans (getUniqueGroups_sublist groups), ?_⟩
  rw [List.all_eq_true]
  intro g hg
  have : g ∈ getUniqueGroups groups := hsub.mem hg
  simpa using find?_eq_of_mem_dedupAux this

/-- C2 counterexample: the very first widen call from the empty state
advances *both* thresholds, so the same batch is unshifted and pushed —
the stored list then holds the `2025-06-01` group twice; and a batch with
two events of the same id on the same day yields a group whose items share
an id.  Both halves of the claim fail on this stored state. -/
theorem stored_groups_duplicate_date_and_id :
    ¬ claimC2Stated (fetchTimeLineGroups 1 1 (.ok [evDup, evDup]) 0 initState) := by
  decide

/-- C2 amended: the de-duplication pass guarantees one group per date only
for the *batch* a single call builds and for the *displayed* list
(`getUniqueGroups`), not for the stored list, and item ids inside a group
are never de-duplicated. -/
theorem batch_and_displayed_one_group_per_date (events : List RawEvent)
    (off : Int) (gs : List TimeLineGroup) :
    (buildFiltered events off).Pairwise (fun a b => a.date ≠ b.date) ∧
    (getUniqueGroups gs).Pairwise (fun a b => a.date ≠ b.date) :=
  ⟨getUniqueGroups_pairwise _, getUniqueGroups_pairwise _⟩

/-- C8: an event whose `dtstart` fails the fixed-format parse enters no
group of the merged batch and leaves the stored groups untouched, while an
event whose `dtstart` parses is always placed in some group of the batch —
its `dtend` may fail to parse without effect on membership. -/
theorem invalid_dtstart_never_grouped (events : List RawEvent) (off : Int)
    (e : RawEvent) :
    (parseUTCDateTime e.dtstart = none →
      memSrc (buildFiltered events off) e = false ∧
      ∀ (bd ad : Int) (s : State),
        memSrc (fetchTimeLineGroups bd ad (.ok events) off s).groups e =
          memSrc s.groups e) ∧
    (∀ t : Int, parseUTCDateTime e.dtstart = some t → e ∈ events →
      memSrc (buildFiltered events off) e = true) := by
  constructor
  · intro hinv
    exact ⟨memSrc_buildFiltered_invalid hinv events off,
      fun bd ad s => memSrc_fetch_invalid hinv bd ad events off s⟩
  · intro t hval he
    exact memSrc_buildFiltered_valid hval he off

/-- C8 witness: in the batch `[evA, evBad]`, the malformed-`dtstart` event
`evBad` is in no group and does not change the stored state, while `evA`
(valid `dtstart`, unparsable `dtend`) is grouped. -/
theorem invalid_dtstart_never_grouped_inst :
    memSrc (buildFiltered [evA, evBad] 0) evBad = false ∧
    memSrc (fetchTimeLineGroups 4 5 (.ok [evA, evBad]) 0 initState).groups
        evBad = memSrc initState.groups evBad ∧
    memSrc (buildFiltered [evA, evBad] 0) evA = true :=
  ⟨((invalid_dtstart_never_grouped [evA, evBad] 0 evBad).1 (by decide)).1,
   ((invalid_dtstart_never_grouped [evA, evBad] 0 evBad).1 (by decide)).2
     4 5 initState,
   (invalid_dtstart_never_grouped [evA, evBad] 0 evA).2 1748779200000
     (by decide) (by decide)⟩

/-- C4 counterexample: two same-instant events with numeric ids 9 and 10.
Decimal strings compare `"10" < "9"`, so the claimed string tie-break keeps
id 10 first; the code compares the numbers and puts id 9 first. -/
theorem sortItems_not_string_id_order :
    sortedEvents [evId10, evId9] ≠
      sortBy (fun a b => specChainStr a b ≠ Ordering.gt)
        (([evId10, evId9]).filter (fun e => e.dtstart ≠ "")) := by
  decide

/-- C4 amended: the comparator realises the §4.5 chain with two
corrections — the id tie-break is numeric, and two items with
non-comparable instants are ordered first-after-second rather than kept
stable; the sign of the code's comparator equals the amended rule chain on
every pair, and the same-instant same-id scenario sorts episode 1 before
episode 3. -/
theorem sortItems_first_decisive_rule :
    (∀ a b : RawEvent, ordSign (jsCompare a b) = specChainNum a b) ∧
    sortedEvents [evEp3, evEp1] = [evEp1, evEp3] := by
  constructor
  · intro a b
    unfold jsCompare specChainNum
    cases ha : parseISOSliced a.dtstart with
    | none => cases hb : parseISOSliced b.dtstart <;> rfl
    | some x =>
      cases hb : parseISOSliced b.dtstart with
      | none => rfl
      | some y =>
        dsimp only
        rcases lt_trichotomy x y with hxy | hxy | hxy
        · simp [ordSign, hxy, show x ≠ y by omega, show x - y < 0 by omega]
        · subst hxy
          rcases lt_trichotomy a.id b.id with hid | hid | hid
          · simp [ordSign, hid, show a.id ≠ b.id by omega,
              show ¬ b.id < a.id by omega]
          · cases hea : a.episode with
            | none => cases heb : b.episode <;> simp [ordSign, hid, hea, heb]
            | some ea =>
              cases heb : b.episode with
              | none => simp [ordSign, hid, hea, heb]
              | some eb =>
                rcases lt_trichotomy ea eb with he | he | he
                · simp [ordSign, hid, hea, heb, he,
                    show ea - eb < 0 by omega]
                · subst he
                  simp [ordSign, hid, hea, heb]
                · simp [ordSign, hid, hea, heb, he,
                    show ¬ ea < eb by omega, show ¬ ea - eb < 0 by omega,
                    show 0 < ea - eb by omega]
          · simp [ordSign, hid, show a.id ≠ b.id by omega,
              show ¬ a.id < b.id by omega]
        · simp [ordSign, hxy, show x ≠ y by omega, show ¬ x < y by omega,
            show ¬ x - y < 0 by omega, show 0 < x - y by omega]
  · decide

end SubscribeCal
